import Mathlib

/-
Verification of backend/pkg/kafka/describe_consumer_groups.go.

The Go function DescribeConsumerGroups buckets the requested consumer groups
by their coordinating broker, issues one batched DescribeGroups request per
distinct broker in parallel goroutines, aggregates the responses from a
channel while racing against context cancellation, converts the raw sarama
group records into the output shape and finally sorts the result by groupID.

Embedding choices:
- The external sarama client is modelled by two environment functions:
  resolve (Client.Coordinator, returning the coordinating broker id or an
  error) and describe (Broker.DescribeGroups for one batched request).
- A raw sarama member record carries the result of GetMemberAssignment
  directly: a possibly-nil pointer (Option MemberAssignment) together with a
  possibly-nil error (Option String).  sarama returns both at once.
- Goroutine nondeterminism: each worker is pure (its outcome depends only on
  its bucket), the result channel delivers all outcomes in some arrival
  order and is closed after the last one.  The arrival order is modelled by
  a reordering function arrive (theorems assume arrive l is a permutation
  of l).  The select statement in the consuming loop is modelled by two
  choice functions: fired i says whether ctx.Done is ready at the i-th
  select, pick i says whether the runtime chooses the ctx.Done branch
  there (Go chooses pseudo-randomly among ready branches, so when both
  branches are ready either choice is admissible).
- Logging (logger.Warn on assignment decode failure, logger.Error on
  cancellation) is modelled by a list of log lines returned alongside the
  result, in emission order.
- A Go panic (the nil-pointer dereference assignments.Topics that happens
  when GetMemberAssignment returns a nil pointer) is modelled by the value
  none of the surrounding Option.
- Go sort.Slice with a strict less comparator produces some permutation of
  the input that is nondecreasing for that comparator; it is embedded as
  List.insertionSort with the corresponding non-strict relation.  Whenever
  a claim depends on the exact resulting list, the keys involved are
  pairwise distinct, so every nondecreasing permutation is the same list
  and the embedding is exact.
- Go string comparison is byte-wise lexicographic on UTF-8; on Unicode
  scalar values this coincides with codepoint-wise lexicographic order.  It
  is embedded as the executable goStrLt below (the String order of Mathlib
  is equivalent but its decision procedure does not reduce in the kernel);
  bridge lemmas connect goStrLt to the String linear order.
-/

namespace DescribeConsumerGroupsProof

/-- Byte comparison of two characters, as Go compares the bytes of a string
(restricted to Unicode scalar values, where byte order and codepoint order
agree). -/
def goCharLt (a b : Char) : Bool := a.toNat < b.toNat

/-- Lexicographic comparison of two character lists, as Go compares strings. -/
def goStrLtAux : List Char → List Char → Bool
  | [], [] => false
  | [], _ :: _ => true
  | _ :: _, [] => false
  | a :: as, b :: bs =>
    if goCharLt a b then true
    else if goCharLt b a then false
    else goStrLtAux as bs

/-- Go string comparison a < b. -/
def goStrLt (a b : String) : Bool := goStrLtAux a.data b.data

/-- Go string comparison a <= b (the negation of goStrLt b a, as used by
sort.Slice to characterise a nondecreasing sequence). -/
def goStrLe (a b : String) : Bool := !(goStrLt b a)

/-- Output type GroupMemberAssignment of describe_consumer_groups.go: a
partition assignment for a group member.  Partition ids are int32 in Go;
no arithmetic is performed on them, so they are embedded as Int. -/
structure GroupMemberAssignment where
  topicName : String
  partitionIDs : List Int
deriving DecidableEq

/-- Output type GroupMemberDescription: a member of a consumer group. -/
structure GroupMemberDescription where
  id : String
  clientID : String
  clientHost : String
  assignments : List GroupMemberAssignment
deriving DecidableEq

/-- Output type GroupDescription for a Kafka consumer group. -/
structure GroupDescription where
  groupID : String
  state : String
  protocolType : String
  protocol : String
  members : List GroupMemberDescription
deriving DecidableEq

/-- Model of sarama.ConsumerGroupMemberAssignment: the topics map decoded
from the opaque member assignment payload, in iteration order. -/
structure MemberAssignment where
  topics : List (String × List Int)
deriving DecidableEq

/-- Model of sarama.GroupMemberDescription.  The assignment and
assignmentErr fields hold the pointer and the error that
GetMemberAssignment returns for this member: sarama allocates the result
before decoding, so a decode error can come with a non-nil, partially
filled value. -/
structure SaramaMember where
  clientId : String
  clientHost : String
  assignment : Option MemberAssignment
  assignmentErr : Option String
deriving DecidableEq

/-- Model of sarama.GroupDescription, one raw per-group record of a
DescribeGroups response.  err is the per-group KError code
(0 = ErrNoError).  members is the broker-provided member map, keyed by
member id, as a list in Go map iteration order. -/
structure SaramaGroupDescription where
  err : Int
  groupId : String
  state : String
  protocolType : String
  protocol : String
  members : List (String × SaramaMember)
deriving DecidableEq

/-- Errors returned by DescribeConsumerGroups, one constructor per return
path of the Go function: a Coordinator lookup error, the formatted
broker-failure error (which embeds the broker id), a per-group KError
propagated from convertSaramaGroupDescriptions, and the cancellation
error. -/
inductive KafkaErr where
  | resolveFailed (msg : String)
  | brokerFailed (brokerID : Int) (msg : String)
  | groupError (code : Int)
  | cancelled
deriving DecidableEq

/-- Decidable equality for Except, used to evaluate the model on concrete
inputs. -/
def exceptDecEq {ε α : Type} [DecidableEq ε] [DecidableEq α] :
    DecidableEq (Except ε α) := fun a b =>
  match a, b with
  | .error e1, .error e2 =>
    if h : e1 = e2 then isTrue (by rw [h])
    else isFalse (fun hc => h (by injection hc))
  | .error _, .ok _ => isFalse (fun hc => Except.noConfusion hc)
  | .ok _, .error _ => isFalse (fun hc => Except.noConfusion hc)
  | .ok a1, .ok a2 =>
    if h : a1 = a2 then isTrue (by rw [h])
    else isFalse (fun hc => h (by injection hc))

instance {ε α : Type} [DecidableEq ε] [DecidableEq α] : DecidableEq (Except ε α) :=
  exceptDecEq

/-- Payload of the per-worker result channel (the anonymous response struct
in DescribeConsumerGroups). -/
structure Response where
  err : Option String
  groups : List SaramaGroupDescription
  brokerID : Int
deriving DecidableEq

/-- Ordering relation used by sort.Slice on partition ids. -/
def intLe (a b : Int) : Prop := a ≤ b

instance : DecidableRel intLe := fun a b => Int.decLe a b

/-- Ordering relation used by sort.Slice on assignments (by topic name). -/
def assignLe (a b : GroupMemberAssignment) : Prop :=
  goStrLe a.topicName b.topicName = true

instance : DecidableRel assignLe := fun _ _ => instDecidableEqBool _ _

/-- Ordering relation used by sort.Slice on group descriptions (by group
id). -/
def descLe (a b : GroupDescription) : Prop :=
  goStrLe a.groupID b.groupID = true

instance : DecidableRel descLe := fun _ _ => instDecidableEqBool _ _

/-- Log line emitted by logger.Warn when a member assignment fails to
decode (the Go call logs the client id and the error). -/
def warnDecode (clientId errMsg : String) : String :=
  "failed to decode member assignments client_id=" ++ clientId ++ " err=" ++ errMsg

/-- Log line emitted by logger.Error when the context is cancelled. -/
def cancelLog : String := "context has been cancelled"

/-- Body of the per-member loop of convertGroupMembers (lines 148-186).
For protocol type "consumer" it calls GetMemberAssignment, logs a warning
if that returned an error, and then iterates the Topics map of the
returned value unconditionally, sorting each partition list; for any other
protocol type decoding is not attempted and the member gets an empty
assignment list.  none models the nil-pointer dereference panic at
assignments.Topics when GetMemberAssignment returned a nil pointer. -/
def convertMember (protocolType : String) (id : String) (m : SaramaMember) :
    Option (GroupMemberDescription × List String) :=
  if protocolType = "consumer" then
    match m.assignment with
    | none => none
    | some a =>
      let warns : List String :=
        match m.assignmentErr with
        | some e => [warnDecode m.clientId e]
        | none => []
      let assigns := a.topics.map fun p =>
        { topicName := p.1, partitionIDs := List.insertionSort intLe p.2 :
          GroupMemberAssignment }
      some ({ id := id, clientID := m.clientId, clientHost := m.clientHost,
              assignments := List.insertionSort assignLe assigns }, warns)
  else
    some ({ id := id, clientID := m.clientId, clientHost := m.clientHost,
            assignments := [] }, [])

/-- convertGroupMembers (lines 144-190): converts the broker-provided
member map (in iteration order) into the output member list, collecting
warning logs.  The Go function always returns a nil error, so the only
failure mode is the panic (none) from convertMember. -/
def convertGroupMembers (protocolType : String) :
    List (String × SaramaMember) → Option (List GroupMemberDescription × List String)
  | [] => some ([], [])
  | (id, m) :: rest =>
    match convertMember protocolType id m with
    | none => none
    | some (d, ws) =>
      match convertGroupMembers protocolType rest with
      | none => none
      | some (ds, ws2) => some (d :: ds, ws ++ ws2)

/-- convertSaramaGroupDescriptions (lines 121-142): converts one brokers
raw batch.  A record with a non-zero KError code aborts the whole
conversion with that error; otherwise records are converted in order. -/
def convertSaramaGroupDescriptions :
    List SaramaGroupDescription → Option (Except KafkaErr (List GroupDescription) × List String)
  | [] => some (.ok [], [])
  | d :: rest =>
    if d.err ≠ 0 then some (.error (.groupError d.err), [])
    else
      match convertGroupMembers d.protocolType d.members with
      | none => none
      | some (ms, ws) =>
        match convertSaramaGroupDescriptions rest with
        | none => none
        | some (.error e, ws2) => some (.error e, ws ++ ws2)
        | some (.ok gs, ws2) =>
          some (.ok ({ groupID := d.groupId, state := d.state,
                       protocolType := d.protocolType, protocol := d.protocol,
                       members := ms } :: gs), ws ++ ws2)

/-- One step of the bucketing loop: groupsByBrokerID[id] = append(..., group).
The accumulator is an association list in first-insertion key order. -/
def upsert (id : Int) (g : String) : List (Int × List String) → List (Int × List String)
  | [] => [(id, [g])]
  | (i, gs) :: rest =>
    if i = id then (i, gs ++ [g]) :: rest else (i, gs) :: upsert id g rest

/-- Bucketing loop of DescribeConsumerGroups (lines 41-50): resolves each
group to its coordinator, failing fast on the first resolution error, and
groups the input by coordinating broker id. -/
def bucketGroupsAux (resolve : String → Except String Int)
    (acc : List (Int × List String)) : List String → Except String (List (Int × List String))
  | [] => .ok acc
  | g :: rest =>
    match resolve g with
    | .error e => .error e
    | .ok id => bucketGroupsAux resolve (upsert id g acc) rest

/-- Step 1 of DescribeConsumerGroups: the broker-keyed batches. -/
def bucketGroups (resolve : String → Except String Int) (groups : List String) :
    Except String (List (Int × List String)) :=
  bucketGroupsAux resolve [] groups

/-- One worker goroutine (lines 65-83): issues the single batched
DescribeGroups request for its broker and reports one outcome record. -/
def workerOutcome (describe : Int → List String → Except String (List SaramaGroupDescription)) :
    Int × List String → Response
  | (id, grps) =>
    match describe id grps with
    | .error e => { err := some e, groups := [], brokerID := id }
    | .ok gs => { err := none, groups := gs, brokerID := id }

/-- The consuming loop of DescribeConsumerGroups (lines 93-114): arrivals
is the sequence of outcomes the channel will deliver before being closed,
i is the index of the current select.  When both the channel and ctx.Done
are ready, Go picks a branch pseudo-randomly: the ctx.Done branch is taken
at select i exactly when fired i && pick i.  An outcome with a transport
error aborts with a broker-identifying error; a conversion error aborts
with that error; otherwise descriptions accumulate in arrival order.  The
log lines emitted so far are kept on every path. -/
def aggregate (fired pick : Nat → Bool) : Nat → List Response →
    Option (Except KafkaErr (List GroupDescription) × List String)
  | i, [] =>
    if fired i && pick i then some (.error .cancelled, [cancelLog])
    else some (.ok [], [])
  | i, r :: rest =>
    if fired i && pick i then some (.error .cancelled, [cancelLog])
    else
      match r.err with
      | some e => some (.error (.brokerFailed r.brokerID e), [])
      | none =>
        match convertSaramaGroupDescriptions r.groups with
        | none => none
        | some (.error e, ws) => some (.error e, ws)
        | some (.ok ds, ws) =>
          match aggregate fired pick (i + 1) rest with
          | none => none
          | some (.error e, ws2) => some (.error e, ws ++ ws2)
          | some (.ok ds2, ws2) => some (.ok (ds ++ ds2), ws ++ ws2)

/-- DescribeConsumerGroups (lines 37-119).  resolve and describe model the
sarama client, arrive the arrival order of worker outcomes on the result
channel, fired and pick the select choices of the consuming loop.  The
result pairs the Go return value with the emitted log lines; none models a
panic. -/
def describeConsumerGroups (resolve : String → Except String Int)
    (describe : Int → List String → Except String (List SaramaGroupDescription))
    (arrive : List Response → List Response) (fired pick : Nat → Bool)
    (groups : List String) : Option (Except KafkaErr (List GroupDescription) × List String) :=
  match bucketGroups resolve groups with
  | .error e => some (.error (.resolveFailed e), [])
  | .ok buckets =>
    match aggregate fired pick 0 (arrive (buckets.map (workerOutcome describe))) with
    | none => none
    | some (.error e, ws) => some (.error e, ws)
    | some (.ok ds, ws) => some (.ok (List.insertionSort descLe ds), ws)

/-- Specification view of convertMember: the assignment list the member is
emitted with (empty for non-consumer protocol types and for a nil decode
result). -/
def memberAssignmentsOf (protocolType : String) (m : SaramaMember) :
    List GroupMemberAssignment :=
  if protocolType = "consumer" then
    match m.assignment with
    | some a =>
      List.insertionSort assignLe (a.topics.map fun p =>
        { topicName := p.1, partitionIDs := List.insertionSort intLe p.2 })
    | none => []
  else []

/-- Specification view of convertMember: the warnings it logs. -/
def memberWarnings (protocolType : String) (m : SaramaMember) : List String :=
  if protocolType = "consumer" then
    match m.assignmentErr with
    | some e => [warnDecode m.clientId e]
    | none => []
  else []

/-- Specification view of convertMember: the emitted member record. -/
def memberDescOf (protocolType : String) (p : String × SaramaMember) :
    GroupMemberDescription :=
  { id := p.1, clientID := p.2.clientId, clientHost := p.2.clientHost,
    assignments := memberAssignmentsOf protocolType p.2 }

/-- The descriptions contributed by one channel outcome when its conversion
succeeds (and the empty list otherwise). -/
def convOk (r : Response) : List GroupDescription :=
  match convertSaramaGroupDescriptions r.groups with
  | some (.ok ds, _) => ds
  | _ => []

/- Concrete environments used by the witnesses and counterexamples below. -/

/-- A raw group record with no members and no error. -/
def emptyRec (g st : String) : SaramaGroupDescription :=
  { err := 0, groupId := g, state := st, protocolType := "consumer",
    protocol := "", members := [] }

/-- The converted form of emptyRec. -/
def emptyDesc (g st : String) : GroupDescription :=
  { groupID := g, state := st, protocolType := "consumer", protocol := "",
    members := [] }

/-- An environment where every group is coordinated by broker 1. -/
def oneBroker : String → Except String Int := fun _ => .ok 1

/-- An environment with two coordinators: group a on broker 1, the rest on
broker 2. -/
def twoBrokers : String → Except String Int :=
  fun g => if g = "a" then .ok 1 else .ok 2

/-- A faithful broker: it answers a batched describe request with one
member-less record per requested group id, in request order (this is what
Kafka does, duplicates included). -/
def echoDescribe : Int → List String → Except String (List SaramaGroupDescription) :=
  fun _ gs => .ok (gs.map fun g => emptyRec g "Empty")

/-- The member of the determinism example: one decoded topic. -/
def c2member : SaramaMember :=
  { clientId := "", clientHost := "",
    assignment := some { topics := [("topic-x", [2, 0, 1])] },
    assignmentErr := none }

/-- Broker answer for the example scenario of the spec: group-a Stable with
member m1, group-b Empty with no members. -/
def c2describe : Int → List String → Except String (List SaramaGroupDescription) :=
  fun _ _ => .ok
    [{ err := 0, groupId := "group-a", state := "Stable",
       protocolType := "consumer", protocol := "", members := [("m1", c2member)] },
     { err := 0, groupId := "group-b", state := "Empty",
       protocolType := "consumer", protocol := "", members := [] }]

/-- A member whose assignment decoding fails but whose partially decoded
value still holds one topic (sarama allocates the result before decoding,
so this shape is reachable). -/
def c3member : SaramaMember :=
  { clientId := "c1", clientHost := "h1",
    assignment := some { topics := [("t", [0])] },
    assignmentErr := some "corrupt" }

/-- Broker answer holding the group with the corrupt member. -/
def c3describe : Int → List String → Except String (List SaramaGroupDescription) :=
  fun _ _ => .ok
    [{ err := 0, groupId := "g", state := "Stable", protocolType := "consumer",
       protocol := "", members := [("m1", c3member)] }]

/-- Broker answer whose record carries the per-group error code 25. -/
def c6describe : Int → List String → Except String (List SaramaGroupDescription) :=
  fun _ _ => .ok
    [{ err := 25, groupId := "g", state := "Empty", protocolType := "consumer",
       protocol := "", members := [] }]

/-- A broker that fails every describe request at the transport level. -/
def failDescribe : Int → List String → Except String (List SaramaGroupDescription) :=
  fun _ _ => .error "conn refused"

/-- A coordinator lookup that fails for every group. -/
def failResolve : String → Except String Int := fun _ => .error "no coordinator"

/-- Member map for the assignment-ordering witness: two topics, unsorted
partition lists. -/
def c8members : List (String × SaramaMember) :=
  [("m1", { clientId := "c", clientHost := "h",
            assignment := some { topics := [("b", [3, 1]), ("a", [2])] },
            assignmentErr := none })]

/-- The converted member of the assignment-ordering witness. -/
def c8desc : GroupMemberDescription :=
  memberDescOf "consumer"
    ("m1", { clientId := "c", clientHost := "h",
             assignment := some { topics := [("b", [3, 1]), ("a", [2])] },
             assignmentErr := none })

/-- Coordinator map of the batching witness: groups a and b on broker 1,
everything else on broker 2. -/
def c9resolve : String → Except String Int :=
  fun g => if g = "a" then .ok 1 else if g = "b" then .ok 1 else .ok 2

/-- The broker id function corresponding to c9resolve. -/
def c9rid : String → Int :=
  fun g => if g = "a" then 1 else if g = "b" then 1 else 2

/- Bridge lemmas: the executable Go string comparison agrees with the
String linear order of Mathlib. -/

theorem goCharLt_iff {a b : Char} : goCharLt a b = true ↔ a < b := by
  simp only [goCharLt, decide_eq_true_eq]
  exact Iff.rfl

theorem goCharLt_false_eq {a b : Char} (h1 : goCharLt a b = false)
    (h2 : goCharLt b a = false) : a = b := by
  simp only [goCharLt, decide_eq_false_iff_not, Nat.not_lt] at h1 h2
  exact Char.eq_of_val_eq (UInt32.toNat.inj (Nat.le_antisymm h2 h1))

theorem goStrLtAux_iff_lex : ∀ (l1 l2 : List Char),
    goStrLtAux l1 l2 = true ↔ List.Lex (· < ·) l1 l2
  | [], [] => by
    simp only [goStrLtAux, Bool.false_eq_true, false_iff]
    exact List.Lex.not_nil_right _ _
  | [], _ :: _ => by
    simp only [goStrLtAux, true_iff]
    exact List.Lex.nil
  | _ :: _, [] => by
    simp only [goStrLtAux, Bool.false_eq_true, false_iff]
    exact List.Lex.not_nil_right _ _
  | a :: as, b :: bs => by
    by_cases hab : goCharLt a b = true
    · simp only [goStrLtAux, hab, if_true, true_iff]
      exact List.Lex.rel (goCharLt_iff.mp hab)
    · by_cases hba : goCharLt b a = true
      · simp only [goStrLtAux, hab, hba, if_true, if_false, Bool.false_eq_true, false_iff]
        intro hlex
        cases hlex with
        | rel h => exact absurd (goCharLt_iff.mp hba) (lt_asymm h)
        | cons h => exact absurd (goCharLt_iff.mp hba) (lt_irrefl a)
      · have hEq : a = b :=
          goCharLt_false_eq (Bool.eq_false_iff.mpr hab) (Bool.eq_false_iff.mpr hba)
        subst hEq
        have hG : goCharLt a a = false := Bool.eq_false_iff.mpr hab
        rw [show goStrLtAux (a :: as) (a :: bs) = goStrLtAux as bs by
              simp [goStrLtAux, hG]]
        rw [goStrLtAux_iff_lex as bs]
        constructor
        · exact fun h => List.Lex.cons h
        · intro hlex
          cases hlex with
          | rel h => exact absurd h (lt_irrefl a)
          | cons h => exact h

theorem goStrLt_iff {a b : String} : goStrLt a b = true ↔ a < b := by
  rw [String.lt_iff_toList_lt]
  exact goStrLtAux_iff_lex a.data b.data

theorem goStrLe_iff {a b : String} : goStrLe a b = true ↔ a ≤ b := by
  constructor
  · intro hle
    have hfalse : goStrLt b a = false := by
      cases h : goStrLt b a
      · rfl
      · rw [goStrLe, h] at hle
        cases hle
    refine not_lt.mp fun hba => ?_
    rw [goStrLt_iff.mpr hba] at hfalse
    cases hfalse
  · intro hab
    have hfalse : goStrLt b a = false := by
      cases h : goStrLt b a
      · rfl
      · exact absurd (goStrLt_iff.mp h) (not_lt.mpr hab)
    rw [goStrLe, hfalse]
    rfl

/- Totality and transitivity of the three sort relations (used to apply the
insertion sort lemmas of Mathlib). -/

theorem intLe_total (a b : Int) : intLe a b ∨ intLe b a := le_total a b

theorem intLe_trans (a b c : Int) (h1 : intLe a b) (h2 : intLe b c) : intLe a c :=
  le_trans h1 h2

theorem assignLe_total (a b : GroupMemberAssignment) : assignLe a b ∨ assignLe b a := by
  rcases le_total a.topicName b.topicName with h | h
  · exact Or.inl (goStrLe_iff.mpr h)
  · exact Or.inr (goStrLe_iff.mpr h)

theorem assignLe_trans (a b c : GroupMemberAssignment)
    (h1 : assignLe a b) (h2 : assignLe b c) : assignLe a c :=
  goStrLe_iff.mpr (le_trans (goStrLe_iff.mp h1) (goStrLe_iff.mp h2))

theorem descLe_total (a b : GroupDescription) : descLe a b ∨ descLe b a := by
  rcases le_total a.groupID b.groupID with h | h
  · exact Or.inl (goStrLe_iff.mpr h)
  · exact Or.inr (goStrLe_iff.mpr h)

theorem descLe_trans (a b c : GroupDescription)
    (h1 : descLe a b) (h2 : descLe b c) : descLe a c :=
  goStrLe_iff.mpr (le_trans (goStrLe_iff.mp h1) (goStrLe_iff.mp h2))

/- Shape of a successful member conversion. -/

theorem convertMember_inv (pt id : String) (m : SaramaMember)
    (d : GroupMemberDescription) (ws : List String)
    (h : convertMember pt id m = some (d, ws)) :
    d = memberDescOf pt (id, m) ∧ ws = memberWarnings pt m ∧
      (pt = "consumer" → m.assignment.isSome = true) := by
  by_cases hpt : pt = "consumer"
  · cases ha : m.assignment with
    | none =>
      unfold convertMember at h
      rw [if_pos hpt, ha] at h
      cases h
    | some a =>
      unfold convertMember at h
      rw [if_pos hpt, ha] at h
      simp only [Option.some.injEq, Prod.mk.injEq] at h
      obtain ⟨hd, hw⟩ := h
      subst hd
      subst hw
      refine ⟨?_, ?_, fun _ => rfl⟩
      · unfold memberDescOf memberAssignmentsOf
        rw [if_pos hpt, ha]
      · unfold memberWarnings
        rw [if_pos hpt]
  · unfold convertMember at h
    rw [if_neg hpt] at h
    simp only [Option.some.injEq, Prod.mk.injEq] at h
    obtain ⟨hd, hw⟩ := h
    subst hd
    subst hw
    refine ⟨?_, ?_, fun hc => absurd hc hpt⟩
    · unfold memberDescOf memberAssignmentsOf
      rw [if_neg hpt]
    · unfold memberWarnings
      rw [if_neg hpt]

theorem convertMember_eq_some (pt id : String) (m : SaramaMember)
    (h : pt = "consumer" → m.assignment.isSome = true) :
    convertMember pt id m = some (memberDescOf pt (id, m), memberWarnings pt m) := by
  unfold convertMember memberDescOf memberAssignmentsOf memberWarnings
  by_cases hpt : pt = "consumer"
  · rw [if_pos hpt, if_pos hpt, if_pos hpt]
    cases ha : m.assignment with
    | none => rw [ha] at h; cases h hpt
    | some a => rfl
  · rw [if_neg hpt, if_neg hpt, if_neg hpt]

/- Shape of a successful conversion of a whole member map: the output
member list is a map over the input in iteration order, and the log is the
concatenation of the per-member warnings. -/

theorem convertGroupMembers_inv (pt : String) :
    ∀ (members : List (String × SaramaMember)) (ds : List GroupMemberDescription)
      (ws : List String),
      convertGroupMembers pt members = some (ds, ws) →
      ds = members.map (memberDescOf pt) ∧
        ws = members.flatMap (fun p => memberWarnings pt p.2) ∧
        (pt = "consumer" → ∀ p ∈ members, p.2.assignment.isSome = true)
  | [], ds, ws, h => by
    injection h with h1
    injection h1 with hd hw
    subst hd
    subst hw
    exact ⟨rfl, rfl, fun _ p hp => absurd hp (List.not_mem_nil p)⟩
  | (id, m) :: rest, ds, ws, h => by
    unfold convertGroupMembers at h
    cases hcm : convertMember pt id m with
    | none => rw [hcm] at h; cases h
    | some dws =>
      obtain ⟨d0, ws0⟩ := dws
      rw [hcm] at h
      cases hrest : convertGroupMembers pt rest with
      | none => rw [hrest] at h; cases h
      | some dsws =>
        obtain ⟨ds1, ws1⟩ := dsws
        rw [hrest] at h
        simp only at h
        injection h with h1
        injection h1 with hd hw
        subst hd
        subst hw
        obtain ⟨hd0, hw0, hsome⟩ := convertMember_inv pt id m d0 ws0 hcm
        obtain ⟨hds, hws, hall⟩ := convertGroupMembers_inv pt rest ds1 ws1 hrest
        subst hd0
        subst hw0
        subst hds
        subst hws
        refine ⟨rfl, rfl, fun hpt p hp => ?_⟩
        rcases List.mem_cons.mp hp with hp | hp
        · subst hp; exact hsome hpt
        · exact hall hpt p hp

theorem convertGroupMembers_eq_some (pt : String) :
    ∀ (members : List (String × SaramaMember)),
      (pt = "consumer" → ∀ p ∈ members, p.2.assignment.isSome = true) →
      convertGroupMembers pt members =
        some (members.map (memberDescOf pt),
              members.flatMap (fun p => memberWarnings pt p.2))
  | [], _ => rfl
  | (id, m) :: rest, h => by
    unfold convertGroupMembers
    rw [convertMember_eq_some pt id m
          (fun hpt => h hpt (id, m) (List.mem_cons_self _ _))]
    rw [convertGroupMembers_eq_some pt rest
          (fun hpt p hp => h hpt p (List.mem_cons_of_mem _ hp))]
    rfl

/- Facts about a successful batch conversion: output group ids equal the
raw record ids in order, and every raw record was error-free. -/

theorem convertSarama_ok_inv :
    ∀ (gs : List SaramaGroupDescription) (ds : List GroupDescription) (ws : List String),
      convertSaramaGroupDescriptions gs = some (.ok ds, ws) →
      ds.map GroupDescription.groupID = gs.map SaramaGroupDescription.groupId ∧
        ∀ d ∈ gs, d.err = 0
  | [], ds, ws, h => by
    simp only [convertSaramaGroupDescriptions, Option.some.injEq, Prod.mk.injEq,
      Except.ok.injEq] at h
    obtain ⟨hd, _⟩ := h
    subst hd
    exact ⟨rfl, fun d hd => absurd hd (List.not_mem_nil d)⟩
  | d :: rest, ds, ws, h => by
    unfold convertSaramaGroupDescriptions at h
    by_cases he : d.err ≠ 0
    · rw [if_pos he] at h
      simp at h
    · rw [if_neg he] at h
      have he0 : d.err = 0 := not_not.mp he
      cases hm : convertGroupMembers d.protocolType d.members with
      | none => rw [hm] at h; cases h
      | some pr =>
        obtain ⟨ms, ws0⟩ := pr
        rw [hm] at h
        cases hrest : convertSaramaGroupDescriptions rest with
        | none => rw [hrest] at h; cases h
        | some pr2 =>
          obtain ⟨res, ws1⟩ := pr2
          rw [hrest] at h
          cases res with
          | error e => simp at h
          | ok gs2 =>
            simp only [Option.some.injEq, Prod.mk.injEq, Except.ok.injEq] at h
            obtain ⟨hd, _⟩ := h
            obtain ⟨hids, herrs⟩ := convertSarama_ok_inv rest gs2 ws1 hrest
            subst hd
            constructor
            · rw [List.map_cons, List.map_cons, hids]
            · intro d2 hd2
              rcases List.mem_cons.mp hd2 with h2 | h2
              · subst h2; exact he0
              · exact herrs d2 h2

/- Inversion of a successful aggregation loop: the collected descriptions
are the concatenation of the per-outcome conversions in arrival order, and
every consumed outcome was transport-error-free with a successful
conversion. -/

theorem aggregate_ok_inv (fired pick : Nat → Bool) :
    ∀ (i : Nat) (arrivals : List Response) (ds : List GroupDescription) (ws : List String),
      aggregate fired pick i arrivals = some (.ok ds, ws) →
      ds = arrivals.flatMap convOk ∧
        ∀ r ∈ arrivals, r.err = none ∧
          ∃ ds2 ws2, convertSaramaGroupDescriptions r.groups = some (.ok ds2, ws2)
  | i, [], ds, ws, h => by
    unfold aggregate at h
    by_cases hf : (fired i && pick i) = true
    · rw [if_pos hf] at h
      simp at h
    · rw [if_neg hf] at h
      simp only [Option.some.injEq, Prod.mk.injEq, Except.ok.injEq] at h
      obtain ⟨hd, _⟩ := h
      subst hd
      exact ⟨rfl, fun r hr => absurd hr (List.not_mem_nil r)⟩
  | i, r :: rest, ds, ws, h => by
    unfold aggregate at h
    by_cases hf : (fired i && pick i) = true
    · rw [if_pos hf] at h
      simp at h
    · rw [if_neg hf] at h
      cases herr : r.err with
      | some e => rw [herr] at h; simp at h
      | none =>
        rw [herr] at h
        cases hconv : convertSaramaGroupDescriptions r.groups with
        | none => rw [hconv] at h; cases h
        | some pr =>
          obtain ⟨res, ws1⟩ := pr
          rw [hconv] at h
          cases res with
          | error e => simp at h
          | ok ds1 =>
            cases hagg : aggregate fired pick (i + 1) rest with
            | none => rw [hagg] at h; cases h
            | some pr2 =>
              obtain ⟨res2, ws2⟩ := pr2
              rw [hagg] at h
              cases res2 with
              | error e => simp at h
              | ok ds2 =>
                simp only [Option.some.injEq, Prod.mk.injEq, Except.ok.injEq] at h
                obtain ⟨hd, _⟩ := h
                obtain ⟨hds, hall⟩ := aggregate_ok_inv fired pick (i + 1) rest ds2 ws2 hagg
                constructor
                · rw [← hd, hds, List.flatMap_cons]
                  congr 1
                  unfold convOk
                  rw [hconv]
                · intro r2 hr2
                  rcases List.mem_cons.mp hr2 with h2 | h2
                  · subst h2
                    exact ⟨herr, ds1, ws1, hconv⟩
                  · exact hall r2 h2

/- If the ctx.Done branch is taken at the k-th select and the k outcomes
consumed before that were clean, the loop aborts with the cancellation
error no matter how much output was already aggregated. -/

theorem aggregate_cancel (fired pick : Nat → Bool) :
    ∀ (k i : Nat) (arrivals : List Response),
      fired (i + k) && pick (i + k) = true →
      (∀ j, j < k → (fired (i + j) && pick (i + j)) = false) →
      k ≤ arrivals.length →
      (∀ j (hj : j < arrivals.length), j < k →
        arrivals[j].err = none ∧
          ∃ ds ws, convertSaramaGroupDescriptions (arrivals[j]).groups = some (.ok ds, ws)) →
      ∃ ws, aggregate fired pick i arrivals = some (.error .cancelled, ws)
  | 0, i, arrivals, hk, _, _, _ => by
    have hf : (fired i && pick i) = true := by simpa using hk
    cases arrivals with
    | nil => exact ⟨[cancelLog], by unfold aggregate; rw [if_pos hf]⟩
    | cons r rest => exact ⟨[cancelLog], by unfold aggregate; rw [if_pos hf]⟩
  | k + 1, i, arrivals, hk, hprev, hlen, hclean => by
    cases arrivals with
    | nil =>
      rw [List.length_nil] at hlen
      exact absurd hlen (by omega)
    | cons r rest =>
      have hf : (fired i && pick i) = false := by
        have h0 := hprev 0 (Nat.succ_pos k)
        simpa using h0
      have hr := hclean 0 (by simp) (Nat.succ_pos k)
      simp only [List.getElem_cons_zero] at hr
      obtain ⟨herr, ds1, ws1, hconv⟩ := hr
      have hrec : ∃ ws2, aggregate fired pick (i + 1) rest = some (.error .cancelled, ws2) := by
        apply aggregate_cancel fired pick k (i + 1) rest
        · rw [show i + 1 + k = i + (k + 1) by omega]
          exact hk
        · intro j hj
          rw [show i + 1 + j = i + (j + 1) by omega]
          exact hprev (j + 1) (by omega)
        · simp only [List.length_cons] at hlen
          omega
        · intro j hj hjk
          have hstep := hclean (j + 1) (by simp; omega) (by omega)
          simpa using hstep
      obtain ⟨ws2, hagg⟩ := hrec
      refine ⟨ws1 ++ ws2, ?_⟩
      unfold aggregate
      rw [if_neg (by simp [hf]), herr, hconv, hagg]

/- If no ctx.Done branch is ever picked and every clean outcome converts,
the presence of an outcome with a transport error makes the loop abort
with a broker-identifying error. -/

theorem aggregate_transport (fired pick : Nat → Bool) (hpick : ∀ i, pick i = false) :
    ∀ (i : Nat) (arrivals : List Response),
      (∀ r ∈ arrivals, r.err = none →
        ∃ ds ws, convertSaramaGroupDescriptions r.groups = some (.ok ds, ws)) →
      (∃ r ∈ arrivals, r.err.isSome = true) →
      ∃ id msg ws, aggregate fired pick i arrivals = some (.error (.brokerFailed id msg), ws) ∧
        ∃ r, r ∈ arrivals ∧ r.brokerID = id ∧ r.err = some msg
  | _, [], _, hex => by
    obtain ⟨r, hr, _⟩ := hex
    exact absurd hr (List.not_mem_nil r)
  | i, r :: rest, hconv, hex => by
    have hf : (fired i && pick i) = false := by
      rw [hpick i]
      simp
    cases herr : r.err with
    | some e =>
      refine ⟨r.brokerID, e, [], ?_, r, List.mem_cons_self _ _, rfl, herr⟩
      unfold aggregate
      rw [if_neg (by simp [hf]), herr]
    | none =>
      obtain ⟨ds1, ws1, hc⟩ := hconv r (List.mem_cons_self _ _) herr
      have hex2 : ∃ r2 ∈ rest, r2.err.isSome = true := by
        obtain ⟨r2, hr2, hs⟩ := hex
        rcases List.mem_cons.mp hr2 with h2 | h2
        · subst h2
          rw [herr] at hs
          cases hs
        · exact ⟨r2, h2, hs⟩
      obtain ⟨id, msg, ws2, hagg, r2, hr2, hb, he2⟩ :=
        aggregate_transport fired pick hpick (i + 1) rest
          (fun r2 h2 => hconv r2 (List.mem_cons_of_mem _ h2)) hex2
      refine ⟨id, msg, ws1 ++ ws2, ?_, r2, List.mem_cons_of_mem _ hr2, hb, he2⟩
      unfold aggregate
      rw [if_neg (by simp [hf]), herr, hc, hagg]

/- Inversion of a successful call: the buckets resolved, the aggregation
succeeded, and the output is the sorted collected list. -/

theorem describeConsumerGroups_ok_inv (resolve : String → Except String Int)
    (describe : Int → List String → Except String (List SaramaGroupDescription))
    (arrive : List Response → List Response) (fired pick : Nat → Bool)
    (groups : List String) (out : List GroupDescription) (ws : List String)
    (h : describeConsumerGroups resolve describe arrive fired pick groups
          = some (.ok out, ws)) :
    ∃ buckets ds, bucketGroups resolve groups = .ok buckets ∧
      aggregate fired pick 0 (arrive (buckets.map (workerOutcome describe)))
        = some (.ok ds, ws) ∧
      out = List.insertionSort descLe ds := by
  unfold describeConsumerGroups at h
  cases hb : bucketGroups resolve groups with
  | error e => rw [hb] at h; simp at h
  | ok buckets =>
    rw [hb] at h
    dsimp only at h
    cases hagg : aggregate fired pick 0 (arrive (buckets.map (workerOutcome describe))) with
    | none => rw [hagg] at h; cases h
    | some pr =>
      obtain ⟨res, ws1⟩ := pr
      rw [hagg] at h
      cases res with
      | error e => simp at h
      | ok ds =>
        simp only [Option.some.injEq, Prod.mk.injEq, Except.ok.injEq] at h
        obtain ⟨hout, hws⟩ := h
        exact ⟨buckets, ds, rfl, hws ▸ hagg, hout.symm⟩

/- Bucketing facts: the broker keys of the buckets, and the multiset of
bucketed group ids. -/

theorem upsert_keys (id : Int) (g : String) :
    ∀ l : List (Int × List String),
      (upsert id g l).map Prod.fst =
        if id ∈ l.map Prod.fst then l.map Prod.fst else l.map Prod.fst ++ [id]
  | [] => by simp [upsert]
  | (i, gs) :: rest => by
    by_cases hi : i = id
    · subst hi
      have hm : i ∈ ((i, gs) :: rest).map Prod.fst := by simp
      simp [upsert, hm]
    · simp only [upsert, if_neg hi, List.map_cons, upsert_keys id g rest]
      by_cases hm : id ∈ rest.map Prod.fst
      · rw [if_pos hm, if_pos (List.mem_cons.mpr (Or.inr hm))]
      · rw [if_neg hm,
          if_neg (fun hc => by
            rcases List.mem_cons.mp hc with hc | hc
            · exact hi hc.symm
            · exact hm hc),
          List.cons_append]

theorem upsert_flatten (id : Int) (g : String) :
    ∀ l : List (Int × List String),
      List.Perm (((upsert id g l).map Prod.snd).flatten)
        ((l.map Prod.snd).flatten ++ [g])
  | [] => by simp [upsert]
  | (i, gs) :: rest => by
    by_cases hi : i = id
    · subst hi
      rw [show upsert i g ((i, gs) :: rest) = (i, gs ++ [g]) :: rest by
            simp [upsert]]
      simp only [List.map_cons, List.flatten_cons]
      rw [List.append_assoc, List.append_assoc]
      exact List.Perm.append_left gs List.perm_append_comm
    · simp only [upsert, if_neg hi, List.map_cons, List.flatten_cons]
      rw [List.append_assoc]
      exact List.Perm.append_left gs (upsert_flatten id g rest)

theorem bucketGroupsAux_spec (resolve : String → Except String Int) (rid : String → Int) :
    ∀ (groups : List String) (acc : List (Int × List String)),
      (∀ g ∈ groups, resolve g = .ok (rid g)) →
      ∃ buckets, bucketGroupsAux resolve acc groups = .ok buckets ∧
        ((acc.map Prod.fst).Nodup → (buckets.map Prod.fst).Nodup) ∧
        (buckets.map Prod.fst).toFinset =
          (acc.map Prod.fst).toFinset ∪ (groups.map rid).toFinset ∧
        List.Perm ((buckets.map Prod.snd).flatten) ((acc.map Prod.snd).flatten ++ groups)
  | [], acc, _ => by
    refine ⟨acc, rfl, fun h => h, by simp, by simp⟩
  | g :: rest, acc, hres => by
    have hg : resolve g = .ok (rid g) := hres g (List.mem_cons_self _ _)
    obtain ⟨buckets, hbk, hnd, hfin, hperm⟩ :=
      bucketGroupsAux_spec resolve rid rest (upsert (rid g) g acc)
        (fun x hx => hres x (List.mem_cons_of_mem _ hx))
    refine ⟨buckets, ?_, ?_, ?_, ?_⟩
    · unfold bucketGroupsAux
      rw [hg]
      exact hbk
    · intro hacc
      apply hnd
      rw [upsert_keys]
      by_cases hm : (rid g) ∈ acc.map Prod.fst
      · rw [if_pos hm]
        exact hacc
      · rw [if_neg hm]
        rw [List.nodup_append]
        exact ⟨hacc, List.nodup_singleton _,
          fun a ha hb => hm (by rwa [List.mem_singleton.mp hb] at ha)⟩
    · rw [hfin]
      have hup : ((upsert (rid g) g acc).map Prod.fst).toFinset =
          (acc.map Prod.fst).toFinset ∪ {rid g} := by
        rw [upsert_keys]
        by_cases hm : (rid g) ∈ acc.map Prod.fst
        · rw [if_pos hm]
          exact (Finset.union_eq_left.mpr
            (Finset.singleton_subset_iff.mpr (List.mem_toFinset.mpr hm))).symm
        · rw [if_neg hm, List.toFinset_append]
          simp
      rw [hup, List.map_cons, List.toFinset_cons, Finset.insert_eq,
        ← Finset.union_assoc]
    · refine hperm.trans ?_
      refine ((upsert_flatten (rid g) g acc).append_right rest).trans ?_
      rw [List.append_assoc, List.singleton_append]

/- Worker facts. -/

theorem workerOutcome_clean
    (describe : Int → List String → Except String (List SaramaGroupDescription))
    (id : Int) (gs : List String)
    (h : (workerOutcome describe (id, gs)).err = none) :
    describe id gs = .ok ((workerOutcome describe (id, gs)).groups) := by
  unfold workerOutcome at h ⊢
  dsimp only at h ⊢
  cases hd : describe id gs with
  | error e => rw [hd] at h; simp at h
  | ok rs => rfl

theorem workerOutcome_brokerID
    (describe : Int → List String → Except String (List SaramaGroupDescription))
    (id : Int) (gs : List String) :
    (workerOutcome describe (id, gs)).brokerID = id := by
  unfold workerOutcome
  dsimp only
  cases describe id gs <;> rfl

/- The output ids of a successful call are a permutation of the requested
group id occurrences, provided the brokers echo the requested ids. -/

theorem describe_ok_ids_perm (resolve : String → Except String Int)
    (describe : Int → List String → Except String (List SaramaGroupDescription))
    (rid : String → Int) (arrive : List Response → List Response)
    (fired pick : Nat → Bool) (groups : List String)
    (out : List GroupDescription) (ws : List String)
    (hres : ∀ g ∈ groups, resolve g = .ok (rid g))
    (hdesc : ∀ id gs rs, describe id gs = .ok rs →
      rs.map SaramaGroupDescription.groupId = gs)
    (harr : ∀ l, List.Perm (arrive l) l)
    (h : describeConsumerGroups resolve describe arrive fired pick groups
          = some (.ok out, ws)) :
    List.Perm (out.map GroupDescription.groupID) groups := by
  obtain ⟨buckets, ds, hb, hagg, hout⟩ :=
    describeConsumerGroups_ok_inv resolve describe arrive fired pick groups out ws h
  obtain ⟨hds, hclean⟩ := aggregate_ok_inv fired pick 0 _ ds ws hagg
  have hperm_out : List.Perm out ds := hout ▸ List.perm_insertionSort descLe ds
  have harrperm := harr (buckets.map (workerOutcome describe))
  have hpoint : ∀ b ∈ buckets,
      ((convOk (workerOutcome describe b)).map GroupDescription.groupID) = b.2 := by
    intro b hb2
    have hmem : workerOutcome describe b ∈ arrive (buckets.map (workerOutcome describe)) :=
      harrperm.mem_iff.mpr (List.mem_map_of_mem _ hb2)
    obtain ⟨herr, ds2, ws2, hconv⟩ := hclean _ hmem
    obtain ⟨hid, _⟩ := convertSarama_ok_inv _ ds2 ws2 hconv
    have hcOk : convOk (workerOutcome describe b) = ds2 := by
      unfold convOk
      rw [hconv]
    rw [hcOk, hid]
    obtain ⟨id, gs⟩ := b
    exact hdesc id gs _ (workerOutcome_clean describe id gs herr)
  have hchain1 : ds.map GroupDescription.groupID =
      (arrive (buckets.map (workerOutcome describe))).flatMap
        (fun r => (convOk r).map GroupDescription.groupID) := by
    rw [hds, List.map_flatMap]
  have hchain2 : List.Perm
      ((arrive (buckets.map (workerOutcome describe))).flatMap
        (fun r => (convOk r).map GroupDescription.groupID))
      ((buckets.map (workerOutcome describe)).flatMap
        (fun r => (convOk r).map GroupDescription.groupID)) :=
    harrperm.flatMap_right _
  have hchain3 : ((buckets.map (workerOutcome describe)).flatMap
        (fun r => (convOk r).map GroupDescription.groupID))
      = (buckets.map Prod.snd).flatten := by
    rw [List.flatMap_map, List.flatMap_def, List.map_congr_left hpoint]
  have hchain4 : List.Perm ((buckets.map Prod.snd).flatten) groups := by
    obtain ⟨buckets0, hbk0, _, _, hperm0⟩ :=
      bucketGroupsAux_spec resolve rid groups [] hres
    rw [bucketGroups] at hb
    rw [hb] at hbk0
    injection hbk0 with hEq
    subst hEq
    simpa using hperm0
  have h0 : List.Perm (out.map GroupDescription.groupID)
      (ds.map GroupDescription.groupID) := hperm_out.map _
  rw [hchain1] at h0
  have h1 := h0.trans hchain2
  rw [hchain3] at h1
  exact h1.trans hchain4

/-- Claim C2: for the input [group-a, group-b] where both groups resolve to
broker 1, and broker 1 returns group-a (state Stable, protocolType
consumer, one member m1 whose assignment decodes to topic-x with
partitions [2, 0, 1]) and group-b (state Empty, protocolType consumer, no
members), DescribeConsumerGroups returns exactly group-a with member m1
assigned topic-x partitions [0, 1, 2] followed by group-b with no members,
whatever the arrival order of worker outcomes. -/
theorem c2_example_scenario (arrive : List Response → List Response)
    (harr : ∀ l, List.Perm (arrive l) l) :
    describeConsumerGroups oneBroker c2describe arrive (fun _ => false) (fun _ => false)
      ["group-a", "group-b"]
      = some (.ok
          [{ groupID := "group-a", state := "Stable", protocolType := "consumer",
             protocol := "",
             members := [{ id := "m1", clientID := "", clientHost := "",
                           assignments := [{ topicName := "topic-x",
                                             partitionIDs := [0, 1, 2] }] }] },
           { groupID := "group-b", state := "Empty", protocolType := "consumer",
             protocol := "", members := [] }], []) := by
  have hb : bucketGroups oneBroker ["group-a", "group-b"]
      = .ok [((1 : Int), ["group-a", "group-b"])] := rfl
  have hone : (([((1 : Int), ["group-a", "group-b"])]).map (workerOutcome c2describe))
      = [workerOutcome c2describe ((1 : Int), ["group-a", "group-b"])] := rfl
  have harr1 : arrive ([((1 : Int), ["group-a", "group-b"])].map (workerOutcome c2describe))
      = [workerOutcome c2describe ((1 : Int), ["group-a", "group-b"])] :=
    List.perm_singleton.mp (hone ▸ harr _)
  unfold describeConsumerGroups
  rw [hb]
  dsimp only
  rw [harr1]
  decide

/-- Witness for c2_example_scenario: the identity arrival order. -/
theorem c2_example_scenario_witness :
    describeConsumerGroups oneBroker c2describe id (fun _ => false) (fun _ => false)
      ["group-a", "group-b"]
      = some (.ok
          [{ groupID := "group-a", state := "Stable", protocolType := "consumer",
             protocol := "",
             members := [{ id := "m1", clientID := "", clientHost := "",
                           assignments := [{ topicName := "topic-x",
                                             partitionIDs := [0, 1, 2] }] }] },
           { groupID := "group-b", state := "Empty", protocolType := "consumer",
             protocol := "", members := [] }], []) :=
  c2_example_scenario id (fun l => List.Perm.refl l)

/-- Counterexample to claim C3: a member of a consumer-protocol group whose
assignment payload fails to decode is NOT always emitted with an empty
assignment list.  Here the decoder returns the error corrupt together with
a partially decoded map holding topic t, and the call succeeds emitting the
member with that non-empty assignment list. -/
theorem c3_counterexample :
    describeConsumerGroups oneBroker c3describe id (fun _ => false) (fun _ => false) ["g"]
      = some (.ok
          [{ groupID := "g", state := "Stable", protocolType := "consumer",
             protocol := "",
             members := [{ id := "m1", clientID := "c1", clientHost := "h1",
                           assignments := [{ topicName := "t",
                                             partitionIDs := [0] }] }] }],
          [warnDecode "c1" "corrupt"]) ∧
    ([{ topicName := "t", partitionIDs := [0] }] : List GroupMemberAssignment) ≠ [] := by
  constructor
  · decide
  · decide

/-- Claim C3 (amended): for every member of a group whose protocolType is
consumer and whose assignment payload fails to decode, the conversion does
not fail: a warning naming the member client id is logged, and the member
appears in the output with assignments equal to the sorted entries of the
topic map the decoder returned alongside the error (empty exactly when
that returned map is empty). -/
theorem c3_amended_decode_failure (members : List (String × SaramaMember))
    (id : String) (m : SaramaMember) (e : String) (a : MemberAssignment)
    (hall : ∀ p ∈ members, p.2.assignment.isSome = true)
    (hmem : (id, m) ∈ members) (herr : m.assignmentErr = some e)
    (hass : m.assignment = some a) :
    ∃ ds ws, convertGroupMembers "consumer" members = some (ds, ws) ∧
      warnDecode m.clientId e ∈ ws ∧
      ∃ d, d ∈ ds ∧ d.id = id ∧
        d.assignments = List.insertionSort assignLe
          (a.topics.map fun p =>
            { topicName := p.1, partitionIDs := List.insertionSort intLe p.2 }) := by
  refine ⟨members.map (memberDescOf "consumer"),
    members.flatMap (fun p => memberWarnings "consumer" p.2),
    convertGroupMembers_eq_some "consumer" members (fun _ => hall), ?_, ?_⟩
  · apply List.mem_flatMap.mpr
    refine ⟨(id, m), hmem, ?_⟩
    unfold memberWarnings
    rw [if_pos rfl, herr]
    exact List.mem_singleton.mpr rfl
  · refine ⟨memberDescOf "consumer" (id, m), List.mem_map_of_mem _ hmem, rfl, ?_⟩
    unfold memberDescOf memberAssignmentsOf
    rw [if_pos rfl, hass]

/-- Witness for c3_amended_decode_failure: the concrete corrupt member. -/
theorem c3_amended_decode_failure_witness :
    ∃ ds ws, convertGroupMembers "consumer" [("m1", c3member)] = some (ds, ws) ∧
      warnDecode c3member.clientId "corrupt" ∈ ws ∧
      ∃ d, d ∈ ds ∧ d.id = "m1" ∧
        d.assignments = List.insertionSort assignLe
          (({ topics := [("t", [0])] } : MemberAssignment).topics.map fun p =>
            { topicName := p.1, partitionIDs := List.insertionSort intLe p.2 }) :=
  c3_amended_decode_failure [("m1", c3member)] "m1" c3member "corrupt"
    { topics := [("t", [0])] } (by decide) (by decide) (by decide) (by decide)

/-- Claim C10: when protocolType is consumer, convertGroupMembers reads the
topic map of the value returned alongside a decode error: every member
with a non-nil decode result is emitted with exactly the sorted entries of
that returned map (whether or not an error was returned with it), and the
conversion is free of the nil dereference exactly when no member has a nil
decode result. -/
theorem c10_decode_error_map_still_used (members : List (String × SaramaMember)) :
    ((convertGroupMembers "consumer" members).isSome = true ↔
      ∀ p ∈ members, p.2.assignment.isSome = true) ∧
    (∀ ds ws, convertGroupMembers "consumer" members = some (ds, ws) →
      ∀ id m a, (id, m) ∈ members → m.assignment = some a →
        ∃ d, d ∈ ds ∧ d.id = id ∧
          d.assignments = List.insertionSort assignLe
            (a.topics.map fun p =>
              { topicName := p.1, partitionIDs := List.insertionSort intLe p.2 })) := by
  constructor
  · constructor
    · intro hs
      obtain ⟨pr, hpr⟩ := Option.isSome_iff_exists.mp hs
      obtain ⟨ds, ws⟩ := pr
      exact (convertGroupMembers_inv "consumer" members ds ws hpr).2.2 rfl
    · intro hall
      rw [convertGroupMembers_eq_some "consumer" members (fun _ => hall)]
      rfl
  · intro ds ws h id m a hmem hass
    obtain ⟨hds, _, _⟩ := convertGroupMembers_inv "consumer" members ds ws h
    subst hds
    refine ⟨memberDescOf "consumer" (id, m), List.mem_map_of_mem _ hmem, rfl, ?_⟩
    unfold memberDescOf memberAssignmentsOf
    rw [if_pos rfl, hass]

/-- Witness for c10_decode_error_map_still_used: the corrupt member again;
both conjuncts applied at a concrete member map. -/
theorem c10_decode_error_map_still_used_witness :
    (convertGroupMembers "consumer" [("m1", c3member)]).isSome = true ∧
    (∃ d, d ∈ [memberDescOf "consumer" ("m1", c3member)] ∧ d.id = "m1" ∧
      d.assignments = List.insertionSort assignLe
        (({ topics := [("t", [0])] } : MemberAssignment).topics.map fun p =>
          { topicName := p.1, partitionIDs := List.insertionSort intLe p.2 })) := by
  constructor
  · exact (c10_decode_error_map_still_used [("m1", c3member)]).1.mpr (by decide)
  · exact (c10_decode_error_map_still_used [("m1", c3member)]).2
      [memberDescOf "consumer" ("m1", c3member)]
      (memberWarnings "consumer" c3member)
      (by decide) "m1" c3member { topics := [("t", [0])] } (by decide) (by decide)

/-- Claim C8: for every member in the output of convertGroupMembers, the
assignments are sorted by topic name ascending, each partition list is
sorted ascending, and (for the consumer protocol) the assignments are a
permutation of the decoded topic map entries with each partition list a
permutation of the decoded one: no duplicates are introduced or removed
relative to what the decoder produced. -/
theorem c8_assignment_ordering (pt : String) (members : List (String × SaramaMember))
    (ds : List GroupMemberDescription) (ws : List String)
    (h : convertGroupMembers pt members = some (ds, ws)) :
    ∀ d ∈ ds,
      List.Sorted (fun a b => a.topicName ≤ b.topicName) d.assignments ∧
      (∀ a ∈ d.assignments, List.Sorted (fun x y : Int => x ≤ y) a.partitionIDs) ∧
      ∃ p, p ∈ members ∧ d.id = p.1 ∧
        (pt = "consumer" → ∃ asg, p.2.assignment = some asg ∧
          List.Perm d.assignments
            (asg.topics.map fun q =>
              { topicName := q.1, partitionIDs := List.insertionSort intLe q.2 }) ∧
          ∀ q ∈ asg.topics, ∃ a, a ∈ d.assignments ∧ a.topicName = q.1 ∧
            List.Perm a.partitionIDs q.2) := by
  haveI : IsTotal GroupMemberAssignment assignLe := ⟨assignLe_total⟩
  haveI : IsTrans GroupMemberAssignment assignLe := ⟨assignLe_trans⟩
  haveI : IsTotal Int intLe := ⟨intLe_total⟩
  haveI : IsTrans Int intLe := ⟨intLe_trans⟩
  obtain ⟨hds, _, hall⟩ := convertGroupMembers_inv pt members ds ws h
  subst hds
  intro d hd
  obtain ⟨p, hp, hdp⟩ := List.mem_map.mp hd
  subst hdp
  by_cases hpt : pt = "consumer"
  · have hsome := hall hpt p hp
    obtain ⟨asg, hasg⟩ := Option.isSome_iff_exists.mp hsome
    have hassign : (memberDescOf pt p).assignments = List.insertionSort assignLe
        (asg.topics.map fun q =>
          { topicName := q.1, partitionIDs := List.insertionSort intLe q.2 }) := by
      unfold memberDescOf memberAssignmentsOf
      rw [if_pos hpt, hasg]
    refine ⟨?_, ?_, p, hp, rfl, fun _ => ⟨asg, hasg, ?_, ?_⟩⟩
    · rw [hassign]
      exact (List.sorted_insertionSort assignLe _).imp
        (fun hab => goStrLe_iff.mp hab)
    · intro a ha
      rw [hassign] at ha
      have ha2 := (List.perm_insertionSort assignLe _).mem_iff.mp ha
      obtain ⟨q, _, hq⟩ := List.mem_map.mp ha2
      subst hq
      exact List.sorted_insertionSort intLe q.2
    · rw [hassign]
      exact List.perm_insertionSort assignLe _
    · intro q hq
      refine ⟨{ topicName := q.1, partitionIDs := List.insertionSort intLe q.2 },
        ?_, rfl, List.perm_insertionSort intLe q.2⟩
      rw [hassign]
      exact (List.perm_insertionSort assignLe _).mem_iff.mpr
        (List.mem_map_of_mem _ hq)
  · have hassign : (memberDescOf pt p).assignments = [] := by
      unfold memberDescOf memberAssignmentsOf
      rw [if_neg hpt]
    refine ⟨?_, ?_, p, hp, rfl, fun hc => absurd hc hpt⟩
    · rw [hassign]
      exact List.sorted_nil
    · intro a ha
      rw [hassign] at ha
      exact absurd ha (List.not_mem_nil a)

/-- Witness for c8_assignment_ordering: a member with two topics and
unsorted partition lists, instantiated at its converted output record. -/
theorem c8_assignment_ordering_witness :
    List.Sorted (fun a b => a.topicName ≤ b.topicName) c8desc.assignments ∧
    (∀ a ∈ c8desc.assignments, List.Sorted (fun x y : Int => x ≤ y) a.partitionIDs) ∧
    ∃ p, p ∈ c8members ∧ c8desc.id = p.1 ∧
      ("consumer" = "consumer" → ∃ asg, p.2.assignment = some asg ∧
        List.Perm c8desc.assignments
          (asg.topics.map fun q =>
            { topicName := q.1, partitionIDs := List.insertionSort intLe q.2 }) ∧
        ∀ q ∈ asg.topics, ∃ a, a ∈ c8desc.assignments ∧ a.topicName = q.1 ∧
          List.Perm a.partitionIDs q.2) :=
  c8_assignment_ordering "consumer" c8members [c8desc] [] (by decide)
    c8desc (by decide)

/-- Conversion aborts with the group error of the first erroring record:
if all records before d are error-free and their member maps convert, the
batch conversion returns exactly the per-group error of d. -/
theorem convertSarama_first_group_error (d : SaramaGroupDescription)
    (he : d.err ≠ 0) :
    ∀ (pre post : List SaramaGroupDescription),
      (∀ x ∈ pre, x.err = 0) →
      (∀ x ∈ pre, ∃ ms ws1, convertGroupMembers x.protocolType x.members
        = some (ms, ws1)) →
      ∃ ws2, convertSaramaGroupDescriptions (pre ++ d :: post)
        = some (.error (.groupError d.err), ws2)
  | [], post, _, _ => by
    refine ⟨[], ?_⟩
    rw [List.nil_append]
    unfold convertSaramaGroupDescriptions
    rw [if_pos he]
  | x :: pre, post, herrs, hconvs => by
    obtain ⟨ms, ws1, hx⟩ := hconvs x (List.mem_cons_self _ _)
    obtain ⟨ws2, hrest⟩ := convertSarama_first_group_error d he pre post
      (fun y hy => herrs y (List.mem_cons_of_mem _ hy))
      (fun y hy => hconvs y (List.mem_cons_of_mem _ hy))
    refine ⟨ws1 ++ ws2, ?_⟩
    rw [List.cons_append]
    unfold convertSaramaGroupDescriptions
    rw [if_neg (by rw [herrs x (List.mem_cons_self _ _)]; exact fun hc => hc rfl),
      hx, hrest]

/-- Claim C6: if any raw group record inside an otherwise successful
per-broker batch response carries a per-group error code, the entire call
fails — it can never return a successful list of descriptions, so the bad
group is not merely omitted — and the conversion of that batch returns
exactly the per-group error of the first erroring record. -/
theorem c6_group_error_fails_call (resolve : String → Except String Int)
    (describe : Int → List String → Except String (List SaramaGroupDescription))
    (arrive : List Response → List Response) (fired pick : Nat → Bool)
    (groups : List String) (buckets : List (Int × List String))
    (r : Response) (d : SaramaGroupDescription)
    (hb : bucketGroups resolve groups = .ok buckets)
    (hr : r ∈ arrive (buckets.map (workerOutcome describe)))
    (hd : d ∈ r.groups) (he : d.err ≠ 0) :
    (∀ out ws, describeConsumerGroups resolve describe arrive fired pick groups
      ≠ some (.ok out, ws)) ∧
    (∀ pre post, r.groups = pre ++ d :: post →
      (∀ x ∈ pre, x.err = 0) →
      (∀ x ∈ pre, ∃ ms ws1, convertGroupMembers x.protocolType x.members
        = some (ms, ws1)) →
      ∃ ws2, convertSaramaGroupDescriptions r.groups
        = some (.error (.groupError d.err), ws2)) := by
  constructor
  · intro out ws hcall
    obtain ⟨buckets2, ds, hb2, hagg, _⟩ :=
      describeConsumerGroups_ok_inv resolve describe arrive fired pick groups out ws hcall
    rw [hb] at hb2
    injection hb2 with hEq
    subst hEq
    obtain ⟨_, hclean⟩ := aggregate_ok_inv fired pick 0 _ ds ws hagg
    obtain ⟨_, ds2, ws2, hconv⟩ := hclean r hr
    obtain ⟨_, herrs⟩ := convertSarama_ok_inv _ ds2 ws2 hconv
    exact he (herrs d hd)
  · intro pre post hsplit herrs hconvs
    rw [hsplit]
    exact convertSarama_first_group_error d he pre post herrs hconvs

/-- Witness for c6_group_error_fails_call: broker 1 reports error code 25
for group g inside a successful batch; the call cannot succeed and the
batch conversion yields exactly that group error. -/
theorem c6_group_error_fails_call_witness :
    (describeConsumerGroups oneBroker c6describe id (fun _ => false) (fun _ => false)
      ["g"] ≠ some (.ok [], [])) ∧
    ∃ ws2, convertSaramaGroupDescriptions
        [{ err := 25, groupId := "g", state := "Empty",
           protocolType := "consumer", protocol := "", members := [] }]
      = some (.error (.groupError 25), ws2) := by
  have h := c6_group_error_fails_call oneBroker c6describe id (fun _ => false)
    (fun _ => false) ["g"] [(1, ["g"])]
    { err := none,
      groups := [{ err := 25, groupId := "g", state := "Empty",
                   protocolType := "consumer", protocol := "", members := [] }],
      brokerID := 1 }
    { err := 25, groupId := "g", state := "Empty", protocolType := "consumer",
      protocol := "", members := [] }
    (by decide) (by decide) (by decide) (by decide)
  exact ⟨h.1 [] [],
    h.2 [] [] rfl (fun x hx => absurd hx (List.not_mem_nil x))
      (fun x hx => absurd hx (List.not_mem_nil x))⟩

/-- Claim C7: a failed coordinator resolution aborts the call immediately
with that error and no output; a failed broker describe request makes a
successful return impossible even though other brokers succeeded; and when
no cancellation branch is picked and every clean response converts, the
returned error is the broker-identifying transport error of some failed
broker. -/
theorem c7_failfast (resolve : String → Except String Int)
    (describe : Int → List String → Except String (List SaramaGroupDescription))
    (arrive : List Response → List Response) (fired pick : Nat → Bool)
    (groups : List String) :
    (∀ e, bucketGroups resolve groups = .error e →
      describeConsumerGroups resolve describe arrive fired pick groups
        = some (.error (.resolveFailed e), [])) ∧
    (∀ buckets r msg, bucketGroups resolve groups = .ok buckets →
      r ∈ arrive (buckets.map (workerOutcome describe)) → r.err = some msg →
      ∀ out ws, describeConsumerGroups resolve describe arrive fired pick groups
        ≠ some (.ok out, ws)) ∧
    (∀ buckets, bucketGroups resolve groups = .ok buckets →
      (∀ i, pick i = false) →
      (∀ r2, r2 ∈ arrive (buckets.map (workerOutcome describe)) → r2.err = none →
        ∃ ds ws, convertSaramaGroupDescriptions r2.groups = some (.ok ds, ws)) →
      (∃ r, r ∈ arrive (buckets.map (workerOutcome describe)) ∧ r.err.isSome = true) →
      ∃ id msg ws, describeConsumerGroups resolve describe arrive fired pick groups
          = some (.error (.brokerFailed id msg), ws) ∧
        ∃ r, r ∈ arrive (buckets.map (workerOutcome describe)) ∧
          r.brokerID = id ∧ r.err = some msg) := by
  refine ⟨?_, ?_, ?_⟩
  · intro e he
    unfold describeConsumerGroups
    rw [he]
  · intro buckets r msg hb hr hmsg out ws hcall
    obtain ⟨buckets2, ds, hb2, hagg, _⟩ :=
      describeConsumerGroups_ok_inv resolve describe arrive fired pick groups out ws hcall
    rw [hb] at hb2
    injection hb2 with hEq
    subst hEq
    obtain ⟨_, hclean⟩ := aggregate_ok_inv fired pick 0 _ ds ws hagg
    obtain ⟨hnone, _⟩ := hclean r hr
    rw [hmsg] at hnone
    cases hnone
  · intro buckets hb hpick hconv hex
    obtain ⟨r0, hr0, hs0⟩ := hex
    obtain ⟨id, msg, ws, hagg, hwit⟩ :=
      aggregate_transport fired pick hpick 0
        (arrive (buckets.map (workerOutcome describe))) hconv ⟨r0, hr0, hs0⟩
    refine ⟨id, msg, ws, ?_, hwit⟩
    unfold describeConsumerGroups
    rw [hb]
    dsimp only
    rw [hagg]

/-- Witness for c7_failfast: all three conjuncts applied at concrete
environments (a failing resolution, a failing broker). -/
theorem c7_failfast_witness :
    describeConsumerGroups failResolve echoDescribe id (fun _ => false) (fun _ => false)
      ["g"] = some (.error (.resolveFailed "no coordinator"), []) ∧
    (describeConsumerGroups oneBroker failDescribe id (fun _ => false) (fun _ => false)
      ["g"] ≠ some (.ok [emptyDesc "g" "Empty"], [])) ∧
    ∃ id2 msg ws, describeConsumerGroups oneBroker failDescribe id (fun _ => false)
        (fun _ => false) ["g"] = some (.error (.brokerFailed id2 msg), ws) ∧
      ∃ r, r ∈ id ([((1 : Int), ["g"])].map (workerOutcome failDescribe)) ∧
        r.brokerID = id2 ∧ r.err = some msg := by
  refine ⟨?_, ?_, ?_⟩
  · exact (c7_failfast failResolve echoDescribe id (fun _ => false) (fun _ => false)
      ["g"]).1 "no coordinator" (by decide)
  · exact (c7_failfast oneBroker failDescribe id (fun _ => false) (fun _ => false)
      ["g"]).2.1 [(1, ["g"])] { err := some "conn refused", groups := [], brokerID := 1 }
      "conn refused" (by decide) (by decide) (by decide) [emptyDesc "g" "Empty"] []
  · exact (c7_failfast oneBroker failDescribe id (fun _ => false) (fun _ => false)
      ["g"]).2.2 [(1, ["g"])] (by decide) (fun _ => rfl)
      (fun r2 hr2 hnone => by
        rw [List.mem_singleton.mp hr2] at hnone
        cases hnone)
      ⟨{ err := some "conn refused", groups := [], brokerID := 1 }, by decide, rfl⟩

/-- Claim C9: one worker goroutine — hence one batched describe request —
is started per bucket, and the buckets carry pairwise distinct broker ids
whose set is exactly the set of resolved coordinators: the number of
requests equals the number of distinct coordinating brokers, never the
number of groups, and the bucketed group occurrences are exactly the
input occurrences. -/
theorem c9_batching_one_request_per_broker (resolve : String → Except String Int)
    (rid : String → Int) (groups : List String)
    (hres : ∀ g ∈ groups, resolve g = .ok (rid g)) :
    ∃ buckets, bucketGroups resolve groups = .ok buckets ∧
      (buckets.map Prod.fst).Nodup ∧
      (buckets.map Prod.fst).toFinset = (groups.map rid).toFinset ∧
      buckets.length = (groups.map rid).toFinset.card ∧
      List.Perm ((buckets.map Prod.snd).flatten) groups := by
  obtain ⟨buckets, hbk, hnd, hfin, hperm⟩ :=
    bucketGroupsAux_spec resolve rid groups [] hres
  have hnd2 := hnd (by simp)
  have hfin2 : (buckets.map Prod.fst).toFinset = (groups.map rid).toFinset := by
    rw [hfin]
    simp
  refine ⟨buckets, hbk, hnd2, hfin2, ?_, by simpa using hperm⟩
  rw [← hfin2, List.toFinset_card_of_nodup hnd2, List.length_map]

/-- Witness for c9_batching_one_request_per_broker: three groups on two
distinct coordinators. -/
theorem c9_batching_one_request_per_broker_witness :
    ∃ buckets, bucketGroups c9resolve ["a", "b", "c"] = .ok buckets ∧
      (buckets.map Prod.fst).Nodup ∧
      (buckets.map Prod.fst).toFinset = (["a", "b", "c"].map c9rid).toFinset ∧
      buckets.length = (["a", "b", "c"].map c9rid).toFinset.card ∧
      List.Perm ((buckets.map Prod.snd).flatten) ["a", "b", "c"] :=
  c9_batching_one_request_per_broker c9resolve c9rid ["a", "b", "c"] (by decide)

/-- Counterexample to claim C4: for the duplicate input [g, g] both
occurrences go to broker 1 in one batch, and the broker — which, like
Kafka, answers one record per requested occurrence — returns two records,
so the call outputs TWO descriptions carrying the same groupID instead of
one description per unique requested id. -/
theorem c4_counterexample :
    describeConsumerGroups oneBroker echoDescribe id (fun _ => false) (fun _ => false)
      ["g", "g"]
      = some (.ok [emptyDesc "g" "Empty", emptyDesc "g" "Empty"], []) ∧
    ¬ (([emptyDesc "g" "Empty",
         emptyDesc "g" "Empty"].map GroupDescription.groupID).Nodup) := by
  constructor
  · decide
  · decide

/-- Claim C4 (amended): DescribeConsumerGroups produces one GroupDescription
per requested group-id occurrence, not per unique id: for a successful
call against brokers answering one record per requested occurrence, the
multiset of output groupIDs equals the multiset of input occurrences.  So
no groupID appears that was not requested, a duplicate-free input yields
exactly one description per unique id, but duplicated inputs yield
duplicated descriptions. -/
theorem c4_amended_one_description_per_occurrence
    (resolve : String → Except String Int)
    (describe : Int → List String → Except String (List SaramaGroupDescription))
    (rid : String → Int) (arrive : List Response → List Response)
    (fired pick : Nat → Bool) (groups : List String)
    (out : List GroupDescription) (ws : List String)
    (hres : ∀ g ∈ groups, resolve g = .ok (rid g))
    (hdesc : ∀ id gs rs, describe id gs = .ok rs →
      rs.map SaramaGroupDescription.groupId = gs)
    (harr : ∀ l, List.Perm (arrive l) l)
    (h : describeConsumerGroups resolve describe arrive fired pick groups
          = some (.ok out, ws)) :
    List.Perm (out.map GroupDescription.groupID) groups :=
  describe_ok_ids_perm resolve describe rid arrive fired pick groups out ws
    hres hdesc harr h

/-- The echo broker answers exactly the requested ids. -/
theorem echoDescribe_ids (id : Int) (gs : List String)
    (rs : List SaramaGroupDescription)
    (h : echoDescribe id gs = .ok rs) :
    rs.map SaramaGroupDescription.groupId = gs := by
  injection h with h2
  subst h2
  have hcomp : (SaramaGroupDescription.groupId ∘ fun g => emptyRec g "Empty")
      = fun g : String => g := rfl
  rw [List.map_map, hcomp]
  exact List.map_id' gs

/-- Witness for c4_amended_one_description_per_occurrence: the duplicated
input appears duplicated in the output. -/
theorem c4_amended_one_description_per_occurrence_witness :
    List.Perm ([emptyDesc "g" "Empty",
                emptyDesc "g" "Empty"].map GroupDescription.groupID) ["g", "g"] :=
  c4_amended_one_description_per_occurrence oneBroker echoDescribe (fun _ => 1) id
    (fun _ => false) (fun _ => false) ["g", "g"]
    [emptyDesc "g" "Empty", emptyDesc "g" "Empty"] []
    (by decide) echoDescribe_ids (fun l => List.Perm.refl l) (by decide)

/-- Counterexample to claim C5: the cancellation signal is ready at every
select — it fired before any outcome was consumed, hence before the
channel closed — yet the runtime (which picks pseudo-randomly among ready
select branches) never picks the ctx.Done branch, and the call returns a
successful, non-empty output instead of a cancellation error. -/
theorem c5_counterexample :
    (fun _ : Nat => true) 0 = true ∧
    describeConsumerGroups oneBroker echoDescribe id (fun _ => true) (fun _ => false)
      ["g"] = some (.ok [emptyDesc "g" "Empty"], []) ∧
    ([emptyDesc "g" "Empty"] : List GroupDescription) ≠ [] := by
  refine ⟨rfl, by decide, by decide⟩

/-- Claim C5 (amended): when the consuming loop picks the ctx.Done branch
at its k-th select — which is possible at any select point once the
cancellation signal has fired — the call returns the cancellation error
and no output, regardless of how many outcomes (k) were already
aggregated.  Firing alone does not force that branch: a run may instead
drain every outcome and return successfully, as the counterexample
shows. -/
theorem c5_amended_cancellation (resolve : String → Except String Int)
    (describe : Int → List String → Except String (List SaramaGroupDescription))
    (arrive : List Response → List Response) (fired pick : Nat → Bool)
    (groups : List String) (buckets : List (Int × List String)) (k : Nat)
    (hb : bucketGroups resolve groups = .ok buckets)
    (hk : (fired k && pick k) = true)
    (hprev : ∀ j, j < k → (fired j && pick j) = false)
    (hlen : k ≤ (arrive (buckets.map (workerOutcome describe))).length)
    (hclean : ∀ j (hj : j < (arrive (buckets.map (workerOutcome describe))).length),
      j < k →
      (arrive (buckets.map (workerOutcome describe)))[j].err = none ∧
        ∃ ds ws, convertSaramaGroupDescriptions
          ((arrive (buckets.map (workerOutcome describe)))[j]).groups
          = some (.ok ds, ws)) :
    ∃ ws, describeConsumerGroups resolve describe arrive fired pick groups
      = some (.error .cancelled, ws) := by
  obtain ⟨ws, hagg⟩ :=
    aggregate_cancel fired pick k 0 (arrive (buckets.map (workerOutcome describe)))
      (by simpa using hk) (fun j hj => by simpa using hprev j hj) hlen hclean
  refine ⟨ws, ?_⟩
  unfold describeConsumerGroups
  rw [hb]
  dsimp only
  rw [hagg]

/-- Witness for c5_amended_cancellation: two brokers, the ctx.Done branch
picked at the second select after one outcome was aggregated. -/
theorem c5_amended_cancellation_witness :
    ∃ ws, describeConsumerGroups twoBrokers echoDescribe id (fun _ => true)
      (fun j => j == 1) ["a", "b"] = some (.error .cancelled, ws) :=
  c5_amended_cancellation twoBrokers echoDescribe id (fun _ => true)
    (fun j => j == 1) ["a", "b"] [(1, ["a"]), (2, ["b"])] 1
    (by decide) (by decide)
    (fun j hj => by
      have hj0 : j = 0 := by omega
      subst hj0
      rfl)
    (by decide)
    (fun j hj hjk => by
      have hj0 : j = 0 := by omega
      subst hj0
      exact ⟨rfl, [emptyDesc "a" "Empty"], [], rfl⟩)

/-- Claim C1: determinism — for a duplicate-free input whose coordinators
all resolve, against brokers answering one record per requested id, any
two successful calls return the same output list, sorted by groupID in
ascending lexicographic order, whatever the arrival order of worker
outcomes and whatever the select choices of the consuming loop. -/
theorem c1_deterministic_sorted (resolve : String → Except String Int)
    (describe : Int → List String → Except String (List SaramaGroupDescription))
    (rid : String → Int) (arrive1 arrive2 : List Response → List Response)
    (fired1 pick1 fired2 pick2 : Nat → Bool) (groups : List String)
    (out1 out2 : List GroupDescription) (ws1 ws2 : List String)
    (hres : ∀ g ∈ groups, resolve g = .ok (rid g))
    (hdesc : ∀ id gs rs, describe id gs = .ok rs →
      rs.map SaramaGroupDescription.groupId = gs)
    (hnd : groups.Nodup)
    (harr1 : ∀ l, List.Perm (arrive1 l) l) (harr2 : ∀ l, List.Perm (arrive2 l) l)
    (h1 : describeConsumerGroups resolve describe arrive1 fired1 pick1 groups
          = some (.ok out1, ws1))
    (h2 : describeConsumerGroups resolve describe arrive2 fired2 pick2 groups
          = some (.ok out2, ws2)) :
    out1 = out2 ∧ List.Sorted (fun a b => a.groupID < b.groupID) out1 := by
  haveI : IsTotal GroupDescription descLe := ⟨descLe_total⟩
  haveI : IsTrans GroupDescription descLe := ⟨descLe_trans⟩
  haveI : IsAntisymm GroupDescription (fun a b => a.groupID < b.groupID) :=
    ⟨fun a b hab hba => absurd hba (lt_asymm hab)⟩
  have hid1 := describe_ok_ids_perm resolve describe rid arrive1 fired1 pick1
    groups out1 ws1 hres hdesc harr1 h1
  have hid2 := describe_ok_ids_perm resolve describe rid arrive2 fired2 pick2
    groups out2 ws2 hres hdesc harr2 h2
  have hnd1 : (out1.map GroupDescription.groupID).Nodup := hid1.symm.nodup hnd
  have hnd2 : (out2.map GroupDescription.groupID).Nodup := hid2.symm.nodup hnd
  obtain ⟨buckets1, ds1, hb1, hagg1, hout1⟩ :=
    describeConsumerGroups_ok_inv resolve describe arrive1 fired1 pick1
      groups out1 ws1 h1
  obtain ⟨buckets2, ds2, hb2, hagg2, hout2⟩ :=
    describeConsumerGroups_ok_inv resolve describe arrive2 fired2 pick2
      groups out2 ws2 h2
  rw [hb1] at hb2
  injection hb2 with hEq
  subst hEq
  obtain ⟨hds1, _⟩ := aggregate_ok_inv fired1 pick1 0 _ ds1 ws1 hagg1
  obtain ⟨hds2, _⟩ := aggregate_ok_inv fired2 pick2 0 _ ds2 ws2 hagg2
  have hp1 : List.Perm ds1 ((buckets1.map (workerOutcome describe)).flatMap convOk) := by
    rw [hds1]
    exact (harr1 _).flatMap_right _
  have hp2 : List.Perm ds2 ((buckets1.map (workerOutcome describe)).flatMap convOk) := by
    rw [hds2]
    exact (harr2 _).flatMap_right _
  have houtperm : List.Perm out1 out2 := by
    have q1 : List.Perm out1 ds1 := hout1 ▸ List.perm_insertionSort descLe ds1
    have q2 : List.Perm out2 ds2 := hout2 ▸ List.perm_insertionSort descLe ds2
    exact ((q1.trans hp1).trans hp2.symm).trans q2.symm
  have hsorted : ∀ (out : List GroupDescription),
      List.Sorted descLe out → (out.map GroupDescription.groupID).Nodup →
      List.Sorted (fun a b => a.groupID < b.groupID) out := by
    intro out hs hn
    have hne : List.Pairwise (fun a b : GroupDescription => a.groupID ≠ b.groupID) out :=
      List.pairwise_map.mp hn
    exact (hs.and hne).imp fun hab => lt_of_le_of_ne (goStrLe_iff.mp hab.1) hab.2
  have hs1 : List.Sorted descLe out1 := hout1 ▸ List.sorted_insertionSort descLe ds1
  have hs2 : List.Sorted descLe out2 := hout2 ▸ List.sorted_insertionSort descLe ds2
  have hstrict1 := hsorted out1 hs1 hnd1
  have hstrict2 := hsorted out2 hs2 hnd2
  exact ⟨List.eq_of_perm_of_sorted houtperm hstrict1 hstrict2, hstrict1⟩

/-- Witness for c1_deterministic_sorted: two brokers, identity versus
reversed arrival order, both runs yield the same sorted output. -/
theorem c1_deterministic_sorted_witness :
    ([emptyDesc "a" "Empty", emptyDesc "b" "Empty"]
      = [emptyDesc "a" "Empty", emptyDesc "b" "Empty"]) ∧
    List.Sorted (fun a b : GroupDescription => a.groupID < b.groupID)
      [emptyDesc "a" "Empty", emptyDesc "b" "Empty"] :=
  c1_deterministic_sorted twoBrokers echoDescribe
    (fun g => if g = "a" then 1 else 2) id List.reverse
    (fun _ => false) (fun _ => false) (fun _ => false) (fun _ => false)
    ["b", "a"]
    [emptyDesc "a" "Empty", emptyDesc "b" "Empty"]
    [emptyDesc "a" "Empty", emptyDesc "b" "Empty"] [] []
    (by decide) echoDescribe_ids (by decide)
    (fun l => List.Perm.refl l) (fun l => List.reverse_perm l)
    (by decide) (by decide)

end DescribeConsumerGroupsProof
